import Mathlib

/-!
Verification of the DQCsim Python boundary layer.

This development is a shallow embedding of the plugin-side Python runtime of
DQCsim: the handle ownership discipline (common/handle.py), the ArbData /
ArbCmd / Measurement envelopes and their codecs (common/arb.py, common/cmd.py,
common/meas.py), the collection codecs (common/qbset.py, common/mset.py,
common/cq.py), and the plugin callback dispatch core with the controlled-gate
matrix upscaler (plugin/__init__.py).

Python byte strings are modelled as `List Nat`; the JSON-like values stored in
the keyed map of an ArbData are modelled by the mutual inductive `JVal`.
The native simulation engine (the Rust core behind the `dqcsim._dqcsim`
module) is not part of the sources; its accessors and the external cbor
library are modelled from the specification where noted.
-/

/-! ## JSON-like values

The data model for entries of the keyed map of an ArbData: a superset of JSON
with byte strings preserved. `JArr` and `JMap` are the list types of the
mutual induction (sequences of values, and string-keyed entry sequences).
-/

mutual

inductive JVal where
  | jnull
  | jbool (b : Bool)
  | jint (n : Int)
  | jstr (s : String)
  | jbytes (bs : List Nat)
  | jarr (xs : JArr)
  | jmap (kvs : JMap)
deriving DecidableEq

inductive JArr where
  | nil
  | cons (v : JVal) (rest : JArr)
deriving DecidableEq

inductive JMap where
  | nil
  | cons (k : String) (v : JVal) (rest : JMap)
deriving DecidableEq

end

/-- Number of elements of a `JArr`. -/
def JArr.len : JArr → Nat
  | .nil => 0
  | .cons _ r => r.len + 1

/-- Number of entries of a `JMap`. -/
def JMap.len : JMap → Nat
  | .nil => 0
  | .cons _ _ r => r.len + 1

/-! ## The cbor codec

Modelled from the spec: the external `cbor` library used by arb.py
(`cbor.dumps` / `cbor.loads`) serializes the keyed map to a self-describing
binary encoding (a superset of JSON preserving byte-string values); the exact
byte layout is owned by the library, the contract used by this layer being
only that decoding the encoding of a value yields the value back, with any
trailing bytes in the buffer ignored. We realize it as a tag-plus-length
encoding over `Nat` bytes with a structurally recursive (fuel-indexed)
decoder, so that the decoder is total and computable.
-/

/-- Encoding of a string: element count followed by the character codes. -/
def encStr (s : String) : List Nat :=
  s.data.length :: s.data.map Char.toNat

mutual

/-- Modelled from the spec: `cbor.dumps` on a single JSON-like value. -/
def encV : JVal → List Nat
  | .jnull => [0]
  | .jbool b => [1, if b then 1 else 0]
  | .jint n => [2, if n < 0 then 1 else 0, n.natAbs]
  | .jstr s => 3 :: encStr s
  | .jbytes bs => 4 :: bs.length :: bs
  | .jarr xs => 5 :: xs.len :: encA xs
  | .jmap kvs => 6 :: kvs.len :: encM kvs

/-- Encoding of the elements of an array value. -/
def encA : JArr → List Nat
  | .nil => []
  | .cons v r => encV v ++ encA r

/-- Encoding of the entries of a map value. -/
def encM : JMap → List Nat
  | .nil => []
  | .cons k v r => encStr k ++ (encV v ++ encM r)

end

/-- Decoding of a string written by `encStr`, returning the remaining input. -/
def readStr : List Nat → Option (String × List Nat)
  | [] => none
  | len :: rest =>
    if len ≤ rest.length then
      some (String.mk ((rest.take len).map Char.ofNat), rest.drop len)
    else none

mutual

/-- Modelled from the spec: the value decoder of `cbor.loads`. Consumes one
value from the front of the input and returns the remaining bytes; the fuel
argument makes the recursion structural. -/
def pV : Nat → List Nat → Option (JVal × List Nat)
  | 0, _ => none
  | fuel+1, input =>
    match input with
    | 0 :: rest => some (.jnull, rest)
    | 1 :: b :: rest => some (.jbool (b ≠ 0), rest)
    | 2 :: s :: m :: rest =>
      some (.jint (if s = 0 then (m : Int) else -(m : Int)), rest)
    | 3 :: rest =>
      match readStr rest with
      | some (s, r) => some (.jstr s, r)
      | none => none
    | 4 :: len :: rest =>
      if len ≤ rest.length then some (.jbytes (rest.take len), rest.drop len)
      else none
    | 5 :: n :: rest =>
      match pA fuel n rest with
      | some (xs, r) => some (.jarr xs, r)
      | none => none
    | 6 :: n :: rest =>
      match pM fuel n rest with
      | some (kvs, r) => some (.jmap kvs, r)
      | none => none
    | _ => none

/-- Decoder for `n` consecutive array elements. -/
def pA : Nat → Nat → List Nat → Option (JArr × List Nat)
  | _, 0, input => some (.nil, input)
  | 0, _+1, _ => none
  | fuel+1, n+1, input =>
    match pV fuel input with
    | some (v, r) =>
      match pA fuel n r with
      | some (xs, r2) => some (.cons v xs, r2)
      | none => none
    | none => none

/-- Decoder for `n` consecutive map entries. -/
def pM : Nat → Nat → List Nat → Option (JMap × List Nat)
  | _, 0, input => some (.nil, input)
  | 0, _+1, _ => none
  | fuel+1, n+1, input =>
    match readStr input with
    | some (k, r0) =>
      match pV fuel r0 with
      | some (v, r) =>
        match pM fuel n r with
        | some (kvs, r2) => some (.cons k v kvs, r2)
        | none => none
      | none => none
    | none => none

end

/-- Modelled from the spec: `cbor.dumps` applied to the keyed-map payload of
an ArbData (a Python dict), as done by `ArbData._to_raw`. -/
def cborDumps (kvs : JMap) : List Nat :=
  encV (.jmap kvs)

/-- Modelled from the spec: `cbor.loads` applied to a byte buffer, as done by
`ArbData._from_raw`. Decodes the first value in the buffer and ignores any
trailing bytes; fails (raises) if the buffer does not start with an encoded
map. -/
def cborLoads (buf : List Nat) : Option JMap :=
  match pV buf.length buf with
  | some (.jmap kvs, _) => some kvs
  | _ => none

theorem encStr_length_pos (s : String) : 1 ≤ (encStr s).length := by
  simp [encStr]

theorem encV_length_pos : ∀ v : JVal, 1 ≤ (encV v).length := by
  intro v
  cases v <;> simp [encV]

theorem readStr_encStr (s : String) (rest : List Nat) :
    readStr (encStr s ++ rest) = some (s, rest) := by
  simp only [encStr, readStr, List.cons_append]
  have hlen : s.data.length ≤ (s.data.map Char.toNat ++ rest).length := by
    simp
  rw [if_pos hlen]
  have htake : (s.data.map Char.toNat ++ rest).take s.data.length
      = s.data.map Char.toNat := by
    rw [List.take_append_of_le_length (by simp)]
    simp
  have hdrop : (s.data.map Char.toNat ++ rest).drop s.data.length = rest := by
    rw [List.drop_append_of_le_length (by simp)]
    simp
  rw [htake, hdrop]
  simp only [List.map_map, Option.some.injEq, Prod.mk.injEq, and_true]
  have hchars : s.data.map (Char.ofNat ∘ Char.toNat) = s.data := by
    have hpt : ∀ c ∈ s.data, (Char.ofNat ∘ Char.toNat) c = id c := by
      intro c _
      simp [Char.ofNat_toNat]
    rw [List.map_congr_left hpt, List.map_id]
  rw [hchars]

mutual

theorem pV_encV : ∀ (v : JVal) (fuel : Nat) (rest : List Nat),
    (encV v).length ≤ fuel → pV fuel (encV v ++ rest) = some (v, rest) := by
  intro v fuel rest h
  match v, fuel with
  | v, 0 => exact absurd (Nat.le_trans (encV_length_pos v) h) (by omega)
  | .jnull, f+1 => simp [encV, pV]
  | .jbool b, f+1 => cases b <;> simp [encV, pV]
  | .jint n, f+1 =>
    simp only [encV, pV, List.cons_append, List.nil_append]
    rcases lt_or_le n 0 with h0 | h0
    · simp only [if_pos h0, if_neg (by decide : ¬ (1 : Nat) = 0)]
      have hm : -(n.natAbs : Int) = n := by omega
      rw [hm]
    · have hn : ¬ n < 0 := by omega
      have hm : (n.natAbs : Int) = n := by omega
      simp [if_neg hn, hm]
  | .jstr s, f+1 =>
    simp [encV, pV, readStr_encStr]
  | .jbytes bs, f+1 =>
    simp only [encV, pV, List.cons_append]
    have hlen : bs.length ≤ (bs ++ rest).length := by simp
    rw [if_pos hlen]
    rw [List.take_append_of_le_length (le_refl _), List.drop_append_of_le_length (le_refl _)]
    simp
  | .jarr xs, f+1 =>
    have hlen : (encA xs).length + 1 ≤ f := by
      simp only [encV, List.length_cons] at h
      omega
    have := pA_encA xs f rest hlen
    simp [encV, pV, this]
  | .jmap kvs, f+1 =>
    have hlen : (encM kvs).length + 1 ≤ f := by
      simp only [encV, List.length_cons] at h
      omega
    have := pM_encM kvs f rest hlen
    simp [encV, pV, this]

theorem pA_encA : ∀ (xs : JArr) (fuel : Nat) (rest : List Nat),
    (encA xs).length + 1 ≤ fuel →
    pA fuel xs.len (encA xs ++ rest) = some (xs, rest) := by
  intro xs fuel rest h
  match xs, fuel with
  | .nil, f => simp [encA, JArr.len, pA]
  | .cons v r, 0 => exact absurd h (by omega)
  | .cons v r, f+1 =>
    have h1 : (encV v).length ≤ f := by
      simp only [encA, List.length_append] at h
      omega
    have h2 : (encA r).length + 1 ≤ f := by
      have := encV_length_pos v
      simp only [encA, List.length_append] at h
      omega
    have hv := pV_encV v f (encA r ++ rest) h1
    have hr := pA_encA r f rest h2
    simp [encA, JArr.len, pA, List.append_assoc, hv, hr]

theorem pM_encM : ∀ (kvs : JMap) (fuel : Nat) (rest : List Nat),
    (encM kvs).length + 1 ≤ fuel →
    pM fuel kvs.len (encM kvs ++ rest) = some (kvs, rest) := by
  intro kvs fuel rest h
  match kvs, fuel with
  | .nil, f => simp [encM, JMap.len, pM]
  | .cons k v r, 0 => exact absurd h (by omega)
  | .cons k v r, f+1 =>
    have h1 : (encV v).length ≤ f := by
      have := encStr_length_pos k
      simp only [encM, List.length_append] at h
      omega
    have h2 : (encM r).length + 1 ≤ f := by
      have := encStr_length_pos k
      have := encV_length_pos v
      simp only [encM, List.length_append] at h
      omega
    have hv := pV_encV v f (encM r ++ rest) h1
    have hr := pM_encM r f rest h2
    simp only [encM, JMap.len, pM, List.append_assoc, readStr_encStr, hv, hr]

end

/-- Decoding the encoded map payload recovers the map, for any trailing
padding left in the probe buffer. -/
theorem cborLoads_cborDumps (kvs : JMap) (padding : List Nat) :
    cborLoads (cborDumps kvs ++ padding) = some kvs := by
  have hfuel : (encV (.jmap kvs)).length ≤ (cborDumps kvs ++ padding).length := by
    simp [cborDumps]
  have := pV_encV (.jmap kvs) (cborDumps kvs ++ padding).length padding hfuel
  simp only [cborLoads, cborDumps] at *
  rw [this]

/-! ## Native ArbData handles

Modelled from the spec: the native engine owns the resource behind an ArbData
handle (an ordered list of binary strings plus the serialized keyed map) and
exposes accessors for it. Reading into a caller-supplied buffer follows the
two-call size-probe pattern: the getter copies as many bytes as fit into the
buffer and returns the total size of the stored data.
-/

structure NativeArb where
  cborBytes : List Nat
  args : List (List Nat)
deriving DecidableEq

/-- Modelled from the spec: writing stored bytes into a fixed-size caller
buffer; bytes that do not fit are dropped, the rest of the buffer keeps its
previous contents. -/
def writeBuf (buf data : List Nat) : List Nat :=
  data.take buf.length ++ buf.drop data.length

/-- Modelled from the spec: `dqcs_arb_new` allocates an empty ArbData. -/
def arbNew : NativeArb :=
  { cborBytes := cborDumps .nil, args := [] }

/-- Modelled from the spec: `dqcs_arb_clear` resets an ArbData resource. -/
def arbClear (_ : NativeArb) : NativeArb :=
  arbNew

/-- Modelled from the spec: `dqcs_arb_cbor_set` stores the serialized keyed
map. -/
def arbCborSet (h : NativeArb) (bs : List Nat) : NativeArb :=
  { h with cborBytes := bs }

/-- Modelled from the spec: `dqcs_arb_cbor_get` writes the serialized keyed
map into the buffer and returns its full size. -/
def arbCborGet (h : NativeArb) (buf : List Nat) : Nat × List Nat :=
  (h.cborBytes.length, writeBuf buf h.cborBytes)

/-- Modelled from the spec: `dqcs_arb_len` returns the number of binary
arguments. -/
def arbLen (h : NativeArb) : Nat :=
  h.args.length

/-- Modelled from the spec: `dqcs_arb_push_raw` appends one binary string. -/
def arbPushRaw (h : NativeArb) (arg : List Nat) : NativeArb :=
  { h with args := h.args ++ [arg] }

/-- Modelled from the spec: `dqcs_arb_get_raw` writes the indexed binary
string into the buffer and returns its full size. -/
def arbGetRaw (h : NativeArb) (i : Nat) (buf : List Nat) : Nat × List Nat :=
  let data := h.args.getD i []
  (data.length, writeBuf buf data)

/-! ## ArbData (common/arb.py) -/

/-- Python-side ArbData value: the ordered binary string list and the keyed
JSON/CBOR map (fields `_args` and `_json`). Structural equality over both
fields mirrors `ArbData.__eq__`. -/
structure ArbData where
  args : List (List Nat)
  json : JMap
deriving DecidableEq

/-- Empty ArbData, as produced by `ArbData()`. -/
def ArbData.empty : ArbData :=
  { args := [], json := .nil }

/-- Body of `ArbData._to_raw` after the handle is picked: store the cbor
serialization of the json map, then push each binary argument in order. -/
def ArbData.fill (d : ArbData) (h : NativeArb) : NativeArb :=
  let h := arbCborSet h (cborDumps d.json)
  d.args.foldl arbPushRaw h

/-- Translation of `ArbData._to_raw` with no existing handle supplied: a
fresh ArbData resource is allocated and filled. -/
def ArbData.to_raw (d : ArbData) : NativeArb :=
  d.fill arbNew

/-- Translation of `ArbData._to_raw` with an existing handle supplied: the
target resource is cleared first, then filled. -/
def ArbData.to_raw_into (d : ArbData) (h : NativeArb) : NativeArb :=
  d.fill (arbClear h)

/-- The two-call size-probe pattern of `ArbData._from_raw`, shared by the
cbor read and the binary argument reads: call the getter with a 256-byte
zeroed buffer; when the reported total size exceeds 256, retry with an
exactly-sized zeroed buffer. -/
def probeGet (read : List Nat → Nat × List Nat) : Nat × List Nat :=
  let buf := List.replicate 256 0
  let l := (read buf).1
  let buf := (read buf).2
  (l, if 256 < l then (read (List.replicate l 0)).2 else buf)

/-- Translation of `ArbData._from_raw`: probe the cbor payload with a
256-byte buffer, retrying with an exactly-sized buffer when the reported size
exceeds 256; then read each binary argument by index with the same
probe-and-retry pattern, truncating the buffer to the reported size. Returns
`none` when the cbor payload does not decode. -/
def ArbData.from_raw (h : NativeArb) : Option ArbData :=
  let cb := (probeGet (arbCborGet h)).2
  match cborLoads cb with
  | none => none
  | some kwargs =>
    let args := (List.range (arbLen h)).map (fun i =>
      let probed := probeGet (arbGetRaw h i)
      probed.2.take probed.1)
    some { args := args, json := kwargs }

theorem writeBuf_zeros (data : List Nat) (n : Nat) (h : data.length ≤ n) :
    writeBuf (List.replicate n 0) data = data ++ List.replicate (n - data.length) 0 := by
  unfold writeBuf
  rw [List.length_replicate, List.take_of_length_le (by omega), List.drop_replicate]

/-- The probe-and-retry read recovers the stored bytes followed by leftover
zero padding of the probe buffer (no padding on the retry path). -/
theorem probeGet_eq (data : List Nat) (read : List Nat → Nat × List Nat)
    (hread : ∀ buf, read buf = (data.length, writeBuf buf data)) :
    probeGet read = (data.length, data ++ List.replicate (256 - data.length) 0) := by
  simp only [probeGet, hread]
  by_cases hlen : 256 < data.length
  · rw [if_pos hlen, writeBuf_zeros data data.length (le_refl _)]
    have h1 : data.length - data.length = 0 := by omega
    have h2 : 256 - data.length = 0 := by omega
    rw [h1, h2]
  · rw [if_neg hlen, writeBuf_zeros data 256 (by omega)]

/-- Filling a native ArbData resource stores the serialized map and the
arguments verbatim. -/
theorem ArbData.fill_eq (d : ArbData) (h : NativeArb) :
    d.fill h = { cborBytes := cborDumps d.json, args := h.args ++ d.args } := by
  unfold ArbData.fill arbCborSet
  have hfold : ∀ (l : List (List Nat)) (g : NativeArb),
      l.foldl arbPushRaw g = { g with args := g.args ++ l } := by
    intro l
    induction l with
    | nil => intro g; simp
    | cons x xs ih =>
      intro g
      simp only [List.foldl_cons, ih, arbPushRaw, List.append_assoc, List.cons_append,
        List.nil_append]
  rw [hfold]

theorem ArbData.to_raw_eq (d : ArbData) :
    d.to_raw = { cborBytes := cborDumps d.json, args := d.args } := by
  unfold ArbData.to_raw
  rw [ArbData.fill_eq]
  simp [arbNew]

/-- Round trip for ArbData: decoding the encoding of any constructible
ArbData value yields the value back, regardless of payload sizes. -/
theorem arbData_roundtrip (d : ArbData) : ArbData.from_raw d.to_raw = some d := by
  rw [ArbData.to_raw_eq]
  unfold ArbData.from_raw
  have hcb := probeGet_eq (cborDumps d.json)
      (arbCborGet { cborBytes := cborDumps d.json, args := d.args })
      (fun buf => rfl)
  simp only [hcb, cborLoads_cborDumps]
  have hargs : (List.range (arbLen { cborBytes := cborDumps d.json, args := d.args })).map
      (fun i =>
        let probed := probeGet (arbGetRaw { cborBytes := cborDumps d.json, args := d.args } i)
        probed.2.take probed.1)
      = d.args := by
    apply List.ext_getElem
    · simp [arbLen]
    · intro i h1 h2
      simp only [List.getElem_map, List.getElem_range]
      have hi := probeGet_eq (d.args.getD i [])
          (arbGetRaw { cborBytes := cborDumps d.json, args := d.args } i)
          (fun buf => rfl)
      rw [hi]
      simp only [List.length_map, List.length_range, arbLen] at h1
      rw [List.take_append_of_le_length (le_refl _), List.take_length]
      rw [List.getD_eq_getElem d.args [] h1]
  rw [hargs]

/-! ## ArbCmd (common/cmd.py) -/

/-- Membership of a character in the class of the identifier regex
`[a-zA-Z0-9_]`. -/
def isIdentChar (c : Char) : Bool :=
  c.isAlpha || c.isDigit || c = '_'

/-- Faithful semantics of `_ident_re.match(s)` for the compiled pattern
`[a-zA-Z0-9_]+`: `re.match` anchors only at the start of the string (it is a
prefix search, not a full match), so the match object is truthy exactly when
the string begins with at least one character of the class. -/
def identReMatch (s : String) : Bool :=
  match s.data with
  | [] => false
  | c :: _ => isIdentChar c

/-- Python-side ArbCmd value: interface and operation identifier strings plus
the inherited ArbData fields. Structural equality over all four fields
mirrors `ArbCmd.__eq__`. -/
structure ArbCmd where
  iface : String
  oper : String
  args : List (List Nat)
  json : JMap
deriving DecidableEq

/-- Translation of the `len(args) >= 2` branch of `ArbCmd.__init__`: the two
identifier arguments are validated with `_ident_re.match` and the rest builds
the ArbData part. An identifier failing the match raises ValueError. -/
def ArbCmd.init (iface oper : String) (args : List (List Nat)) (json : JMap) :
    Except String ArbCmd :=
  if identReMatch iface = false then
    .error ("iface is not a valid identifier: " ++ iface)
  else if identReMatch oper = false then
    .error ("oper is not a valid identifier: " ++ oper)
  else
    .ok { iface := iface, oper := oper, args := args, json := json }

/-- Modelled from the spec: the resource behind an ArbCmd handle, the two
identifier strings plus an ArbData resource. -/
structure NativeCmd where
  iface : String
  oper : String
  arb : NativeArb
deriving DecidableEq

/-- Modelled from the spec: `dqcs_cmd_new` allocates an ArbCmd resource with
the given identifiers and an empty ArbData part. -/
def cmdNew (iface oper : String) : NativeCmd :=
  { iface := iface, oper := oper, arb := arbNew }

/-- Translation of `ArbCmd._to_raw`: allocate a command handle carrying the
identifiers, then run the ArbData `_to_raw` on it (which clears the ArbData
part and fills it). -/
def ArbCmd.to_raw (c : ArbCmd) : NativeCmd :=
  let handle := cmdNew c.iface c.oper
  { handle with arb := ArbData.to_raw_into { args := c.args, json := c.json } handle.arb }

/-- Translation of `ArbCmd._from_raw`: read the ArbData part, construct an
ArbCmd from the identifier accessors (re-running the constructor validation),
then overwrite the `_args` and `_json` fields with the decoded ArbData. -/
def ArbCmd.from_raw (h : NativeCmd) : Except String ArbCmd :=
  match ArbData.from_raw h.arb with
  | none => .error "cbor decode failure"
  | some arg =>
    match ArbCmd.init h.iface h.oper [] .nil with
    | .error e => .error e
    | .ok cmd => .ok { cmd with args := arg.args, json := arg.json }

/-- Round trip for ArbCmd: any value accepted by the constructor decodes from
its encoding unchanged. -/
theorem arbCmd_roundtrip (iface oper : String) (args : List (List Nat)) (json : JMap)
    (c : ArbCmd) (hc : ArbCmd.init iface oper args json = .ok c) :
    ArbCmd.from_raw c.to_raw = .ok c := by
  unfold ArbCmd.init at hc
  by_cases hif : identReMatch iface = false
  · rw [if_pos hif] at hc
    exact absurd hc (by simp)
  · rw [if_neg hif] at hc
    by_cases hop : identReMatch oper = false
    · rw [if_pos hop] at hc
      exact absurd hc (by simp)
    · rw [if_neg hop] at hc
      simp only [Except.ok.injEq] at hc
      subst hc
      unfold ArbCmd.to_raw ArbCmd.from_raw cmdNew
      have harb : ArbData.from_raw
          (ArbData.to_raw_into { args := args, json := json } arbNew)
          = some { args := args, json := json } := by
        have heq : ArbData.to_raw_into { args := args, json := json } arbNew
            = ArbData.to_raw { args := args, json := json } := rfl
        exact heq ▸ arbData_roundtrip { args := args, json := json }
      simp only at harb ⊢
      rw [harb]
      unfold ArbCmd.init
      rw [if_neg hif, if_neg hop]

/-! ## Measurement (common/meas.py) -/

/-- A universe of Python values, used where the source accepts a value of any
type and applies truthiness (the `value` setter of Measurement). -/
inductive PyVal where
  | pynone
  | pybool (b : Bool)
  | pyint (n : Int)
  | pystr (s : String)
  | pybytes (bs : List Nat)
deriving DecidableEq

/-- Python `bool(v)` for the modelled value universe. -/
def PyVal.truthy : PyVal → Bool
  | .pynone => false
  | .pybool b => b
  | .pyint n => n != 0
  | .pystr s => s != ""
  | .pybytes bs => bs != []

/-- Translation of the `value` setter of Measurement: `None` is stored as-is,
any other value is coerced with `int(bool(value))`. -/
def measValueCoerce (v : PyVal) : Option Int :=
  match v with
  | .pynone => none
  | v => some (if v.truthy then 1 else 0)

/-- Python-side Measurement value: qubit reference, tri-state value (stored
as `None`, `0`, or `1` by the setter), plus the inherited ArbData fields.
Structural equality over all fields mirrors `Measurement.__eq__`. -/
structure Measurement where
  qubit : Int
  value : Option Int
  args : List (List Nat)
  json : JMap
deriving DecidableEq

/-- Translation of `Measurement.__init__` plus the two property setters: the
qubit is converted with `int()` and must be at least 1 (else ValueError), the
value is coerced by the value setter. -/
def Measurement.init (qubit : Int) (value : PyVal) (args : List (List Nat)) (json : JMap) :
    Except String Measurement :=
  if qubit < 1 then
    .error ("invalid qubit reference: " ++ toString qubit)
  else
    .ok { qubit := qubit, value := measValueCoerce value, args := args, json := json }

/-- Modelled from the spec: the tri-state measurement value constants of the
native layer (`DQCS_MEAS_UNDEFINED` / `DQCS_MEAS_ZERO` / `DQCS_MEAS_ONE`). -/
inductive MeasRaw where
  | undefined
  | zero
  | one
deriving DecidableEq

/-- Modelled from the spec: the resource behind a Measurement handle, the
qubit reference and tri-state value plus an ArbData resource. -/
structure NativeMeas where
  qubit : Int
  value : MeasRaw
  arb : NativeArb
deriving DecidableEq

/-- Modelled from the spec: `dqcs_meas_new` allocates a measurement resource
with an empty ArbData part. -/
def measNew (qubit : Int) (value : MeasRaw) : NativeMeas :=
  { qubit := qubit, value := value, arb := arbNew }

/-- Translation of `Measurement._to_raw`: map the stored value onto the
native constants (any other value trips the assert, modelled as `none`),
allocate the measurement handle, then run the ArbData `_to_raw` on it. -/
def Measurement.to_raw (m : Measurement) : Option NativeMeas :=
  let value : Option MeasRaw :=
    match m.value with
    | Option.none => some .undefined
    | some 0 => some .zero
    | some 1 => some .one
    | some _ => none
  match value with
  | none => none
  | some v =>
    let handle := measNew m.qubit v
    some { handle with
      arb := ArbData.to_raw_into { args := m.args, json := m.json } handle.arb }

/-- Translation of `Measurement._from_raw`: read the ArbData part, map the
native tri-state constant back to `None`/`0`/`1`, construct a Measurement
through the constructor (re-running qubit validation and value coercion),
then overwrite the `_args` and `_json` fields. -/
def Measurement.from_raw (h : NativeMeas) : Except String Measurement :=
  match ArbData.from_raw h.arb with
  | none => .error "cbor decode failure"
  | some arg =>
    let value : PyVal :=
      match h.value with
      | .undefined => .pynone
      | .zero => .pyint 0
      | .one => .pyint 1
    match Measurement.init h.qubit value [] .nil with
    | .error e => .error e
    | .ok meas => .ok { meas with args := arg.args, json := arg.json }

/-- The value setter only ever stores `None`, `0`, or `1`. -/
theorem measValueCoerce_cases (v : PyVal) :
    measValueCoerce v = none ∨ measValueCoerce v = some 0 ∨ measValueCoerce v = some 1 := by
  cases v with
  | pynone => exact Or.inl rfl
  | pybool b =>
    rcases Bool.eq_false_or_eq_true ((PyVal.pybool b).truthy) with h | h <;>
      simp [measValueCoerce, h]
  | pyint n =>
    rcases Bool.eq_false_or_eq_true ((PyVal.pyint n).truthy) with h | h <;>
      simp [measValueCoerce, h]
  | pystr s =>
    rcases Bool.eq_false_or_eq_true ((PyVal.pystr s).truthy) with h | h <;>
      simp [measValueCoerce, h]
  | pybytes bs =>
    rcases Bool.eq_false_or_eq_true ((PyVal.pybytes bs).truthy) with h | h <;>
      simp [measValueCoerce, h]

/-- Round trip for a Measurement whose stored value is one of the three
values the setter can produce. -/
theorem Measurement.roundtrip_stored (qubit : Int) (hq : ¬ qubit < 1) (v : Option Int)
    (hv : v = none ∨ v = some 0 ∨ v = some 1)
    (args : List (List Nat)) (json : JMap) :
    ∃ nm : NativeMeas,
      Measurement.to_raw { qubit := qubit, value := v, args := args, json := json } = some nm
      ∧ Measurement.from_raw nm
        = .ok { qubit := qubit, value := v, args := args, json := json } := by
  have harb : ArbData.from_raw
      (ArbData.to_raw_into { args := args, json := json } arbNew)
      = some { args := args, json := json } := by
    have heq : ArbData.to_raw_into { args := args, json := json } arbNew
        = ArbData.to_raw { args := args, json := json } := rfl
    exact heq ▸ arbData_roundtrip { args := args, json := json }
  rcases hv with hv | hv | hv <;> subst hv
  · refine ⟨_, rfl, ?_⟩
    unfold Measurement.from_raw measNew
    simp only at harb ⊢
    rw [harb]
    unfold Measurement.init
    rw [if_neg hq]
    rfl
  · refine ⟨_, rfl, ?_⟩
    unfold Measurement.from_raw measNew
    simp only at harb ⊢
    rw [harb]
    unfold Measurement.init
    rw [if_neg hq]
    rfl
  · refine ⟨_, rfl, ?_⟩
    unfold Measurement.from_raw measNew
    simp only at harb ⊢
    rw [harb]
    unfold Measurement.init
    rw [if_neg hq]
    rfl

/-- Round trip for Measurement: any value produced by the constructor decodes
from its encoding unchanged. -/
theorem measurement_roundtrip (qubit : Int) (value : PyVal)
    (args : List (List Nat)) (json : JMap) (m : Measurement)
    (hm : Measurement.init qubit value args json = .ok m) :
    ∃ nm : NativeMeas, m.to_raw = some nm ∧ Measurement.from_raw nm = .ok m := by
  unfold Measurement.init at hm
  by_cases hq : qubit < 1
  · rw [if_pos hq] at hm
    exact absurd hm (by simp)
  · rw [if_neg hq] at hm
    simp only [Except.ok.injEq] at hm
    subst hm
    exact Measurement.roundtrip_stored qubit hq (measValueCoerce value)
      (measValueCoerce_cases value) args json

/-! ## Handle (common/handle.py) -/

/-- Python-side Handle proxy state: the `_handle` field, which becomes `None`
after `take()`. -/
structure PyHandle where
  handle : Option Int
deriving DecidableEq

/-- Translation of `Handle.__init__` (the argument defaults to 0). -/
def PyHandle.init (handle : Int) : PyHandle :=
  { handle := some handle }

/-- Translation of `Handle.__bool__`: valid when the field is set and the id
is positive. -/
def PyHandle.isValid (h : PyHandle) : Bool :=
  match h.handle with
  | none => false
  | some v => 0 < v

/-- Translation of `Handle.__int__` (also the body of `__enter__`, the
with-statement borrow). -/
def PyHandle.toInt (h : PyHandle) : Except String Int :=
  match h.handle with
  | none => .error "Using explicitly taken handle!"
  | some v => .ok v

/-- Translation of `Handle.take`: returns the raw id and clears the field so
that `__del__` will not delete it. -/
def PyHandle.take (h : PyHandle) : Except String (Int × PyHandle) :=
  match h.handle with
  | none => .error "Using explicitly taken handle!"
  | some v => .ok (v, { handle := none })

/-- Translation of `Handle.get_type`: requires the id to be present and
queries the native type registry (`typeOf`, modelled from the spec). -/
def PyHandle.get_type (typeOf : Int → Int) (h : PyHandle) : Except String Int :=
  match h.handle with
  | none => .error "Using explicitly taken handle!"
  | some v => .ok (typeOf v)

/-- Translation of `Handle.is_type`. -/
def PyHandle.is_type (typeOf : Int → Int) (h : PyHandle) (typ : Int) : Except String Bool :=
  match h.get_type typeOf with
  | .error e => .error e
  | .ok t => .ok (t == typ)

/-- Observable outcome of running `Handle.__del__`: the raw ids passed to
`dqcs_handle_delete`, whether the native deletion took effect, and whether an
exception escaped the finalizer. -/
structure DelResult where
  deleteCalls : List Int
  deleted : Bool
  raised : Bool
deriving DecidableEq

/-- Translation of `Handle.__del__`: when the `_handle` attribute exists
(always, once `__init__` has run) and the handle is valid, the native
deletion is called once; a RuntimeError from the native layer is caught and
discarded, leaking the resource. Nothing is called for invalid or taken
handles. The `deleteFails` flag models whether the native call raises
RuntimeError (modelled from the spec: deletion can fail when invoked from a
foreign execution context such as the garbage collector). -/
def PyHandle.del (h : PyHandle) (deleteFails : Bool) : DelResult :=
  if h.isValid then
    match h.handle with
    | some v =>
      if deleteFails then
        { deleteCalls := [v], deleted := false, raised := false }
      else
        { deleteCalls := [v], deleted := true, raised := false }
    | none => { deleteCalls := [], deleted := false, raised := false }
  else
    { deleteCalls := [], deleted := false, raised := false }

/-! ## Collection codecs (common/qbset.py, common/mset.py, common/cq.py) -/

/-- One argument of the variadic `_to_raw` class methods: either a scalar of
the element type or an iterable of elements. -/
inductive VarArg (α : Type) where
  | scalar (a : α)
  | iterable (xs : List α)
deriving DecidableEq

/-- The scalar elements of a variadic argument list, failing on an argument
that is not of the scalar type (pushing it into the native collection would
be a type violation). -/
def collectScalars (err : String) : List (VarArg α) → Except String (List α)
  | [] => .ok []
  | .scalar x :: rest => (collectScalars err rest).map (fun xs => x :: xs)
  | .iterable _ :: _ => .error err

/-- The single-versus-list overload convention shared by the three `_to_raw`
class methods: a lone argument that is not of the scalar element type is
treated as the iterable of elements, any other argument list is the elements
themselves. -/
def varargElems (err : String) (args : List (VarArg α)) : Except String (List α) :=
  match args with
  | [VarArg.iterable xs] => .ok xs
  | args => collectScalars err args

/-- Modelled from the spec: `dqcs_qbset_push` rejects a non-positive or
duplicate qubit reference; the native set preserves insertion order. -/
def qbsetPush (s : List Int) (q : Int) : Except String (List Int) :=
  if q < 1 then .error "invalid qubit reference"
  else if q ∈ s then .error "duplicate qubit reference"
  else .ok (s ++ [q])

/-- The push loop of `QubitSet._to_raw`. -/
def qbsetPushAll (s : List Int) : List Int → Except String (List Int)
  | [] => .ok s
  | q :: qs =>
    match qbsetPush s q with
    | .error e => .error e
    | .ok s2 => qbsetPushAll s2 qs

/-- Translation of `QubitSet._to_raw`: resolve the overload (scalar type
`int`), then push every qubit in order into a fresh native qubit set. The
result is the final contents of the native set. -/
def QubitSet.to_raw (qubits : List (VarArg Int)) : Except String (List Int) :=
  match varargElems "expected int" qubits with
  | .error e => .error e
  | .ok qs => qbsetPushAll [] qs

/-- The fill loop of `MeasurementSet._to_raw`: a duplicate qubit among the
measurements is a ValueError; order of the `dqcs_mset_set` calls is the
element order. -/
def msetFill (done : List Measurement) : List Measurement → Except String (List Measurement)
  | [] => .ok done
  | mv :: rest =>
    if (done.map Measurement.qubit).contains mv.qubit then
      .error ("Multiple measurement defined for qubit " ++ toString mv.qubit)
    else msetFill (done ++ [mv]) rest

/-- Translation of `MeasurementSet._to_raw`: resolve the overload (scalar
type `Measurement`), then insert every measurement, rejecting duplicate
qubits. The result is the sequence of native insertions. -/
def MeasurementSet.to_raw (measurements : List (VarArg Measurement)) :
    Except String (List Measurement) :=
  match varargElems "Expected Measurement object" measurements with
  | .error e => .error e
  | .ok ms => msetFill [] ms

/-- Translation of `ArbCmdQueue._to_raw`: resolve the overload (scalar type
`ArbCmd`), then push every command in order (duplicates allowed). The result
is the final contents of the native queue. -/
def ArbCmdQueue.to_raw (cmds : List (VarArg ArbCmd)) : Except String (List ArbCmd) :=
  match varargElems "Expected an ArbCmd" cmds with
  | .error e => .error e
  | .ok cs => .ok cs

/-- Collecting scalars from an all-scalar argument list yields the elements
unchanged. -/
theorem collectScalars_map_scalar (err : String) (xs : List α) :
    collectScalars err (xs.map VarArg.scalar) = .ok xs := by
  induction xs with
  | nil => rfl
  | cons x rest ih => simp [collectScalars, ih, Except.map]

/-- The variadic form and the single-iterable form resolve to the same
element sequence. -/
theorem varargElems_agree (err : String) (xs : List α) :
    varargElems err (xs.map VarArg.scalar) = varargElems err [VarArg.iterable xs] := by
  have hit : varargElems err [VarArg.iterable xs] = .ok xs := rfl
  rw [hit]
  match xs with
  | [] => rfl
  | [x] => rfl
  | x :: y :: rest =>
    simp only [varargElems, List.map_cons]
    exact collectScalars_map_scalar err (x :: y :: rest)

/-! ## Plugin dispatch core (plugin/__init__.py) -/

/-- Translation of the guard of `Plugin._pc` (shared by every accessor that
operates on plugin state, such as `random_float` or `allocate`): the call
proceeds with the ambient state handle only when one is present, otherwise a
RuntimeError is raised. -/
def pluginPc (stateHandle : Option Int) : Except String Int :=
  match stateHandle with
  | none => .error "Cannot call plugin operator outside of a callback"
  | some h => .ok h

/-- Translation of the guard of `Plugin._log` (shared by `log`, `trace`,
`debug`, `info`, `warn`, `error`, `fatal`, and friends): same check as
`_pc`. -/
def pluginLogCheck (stateHandle : Option Int) : Except String Unit :=
  match stateHandle with
  | none => .error "Cannot call plugin operator outside of a callback"
  | some _ => .ok ()

/-- Outcome of dispatching one callback through `Plugin._cb`. -/
inductive CbOutcome where
  | ran (state : Int)
  | reentrancy (msg : String)
  | notImplemented (msg : String)
deriving DecidableEq

/-- Translation of the entry guard of `Plugin._cb`: when the handler is
defined, a present `_state_handle` means a nested dispatch and raises the
reentrancy RuntimeError before the handler is entered; otherwise the handler
runs with `_state_handle` set to the given state handle (and reset to `None`
afterwards by the finally clause). A missing handler raises
NotImplementedError. -/
def cbDispatch (handlers : List String) (cur : Option Int) (stateHandle : Int)
    (name : String) : CbOutcome :=
  if name ∈ handlers then
    if cur ≠ none then .reentrancy "Invalid state, recursive callback"
    else .ran stateHandle
  else
    .notImplemented ("Python plugin does not implement " ++ name
      ++ "(), which is a required function!")

/-- Translation of `Plugin._route_converted_arb`: an interface missing from
the declared interface set for the source is a silent no-op (`None`);
otherwise the handler named `handle_<source>_<iface>_<oper>` is dispatched,
with a missing handler (NotImplementedError) converted into the
invalid-operation ValueError. The user handlers are modelled by `impl`. -/
def routeConvertedArb (handlers : List String) (arbIfaces : String → List String)
    (impl : String → ArbCmd → Option ArbData) (source : String) (cmd : ArbCmd) :
    Except String (Option ArbData) :=
  if cmd.iface ∉ arbIfaces source then .ok none
  else
    let name := "handle_" ++ source ++ "_" ++ cmd.iface ++ "_" ++ cmd.oper
    if name ∈ handlers then .ok (impl name cmd)
    else .error ("Invalid operation ID " ++ cmd.oper ++ " for interface ID " ++ cmd.iface)

/-- Translation of `Plugin._route_host_arb`: a `None` result (unknown
interface, or a handler that returned `None`) becomes an empty ArbData. -/
def routeHostArb (handlers : List String) (arbIfaces : String → List String)
    (impl : String → ArbCmd → Option ArbData) (cmd : ArbCmd) :
    Except String ArbData :=
  match routeConvertedArb handlers arbIfaces impl "host" cmd with
  | .error e => .error e
  | .ok none => .ok ArbData.empty
  | .ok (some r) => .ok r

/-! ## Gate router and controlled-matrix upscaler (Backend._route_gate)

Python complex numbers are modelled as pairs of exact rationals (real and
imaginary part); the literals `0.0+0.0j` and `1.0+0.0j` written by the
upscaler are exactly representable. Matrices are row-major flat lists, as on
the Python side.
-/

/-- Model of a Python complex number: real and imaginary part. -/
abbrev Cpx := ℚ × ℚ

/-- The Python literal `0.0+0.0j`. -/
def cpxZero : Cpx := (0, 0)

/-- The Python literal `1.0+0.0j`. -/
def cpxOne : Cpx := (1, 0)

/-- Python slice assignment `l[a:b] = repl` for `a ≤ b ≤ l.length` with
`repl` of length `b - a`: the elements at positions `a` up to `b` are
replaced. -/
def pySliceAssign (l : List α) (a b : Nat) (repl : List α) : List α :=
  l.take a ++ repl ++ l.drop b

/-- Translation of the matrix conversion block of `Backend._route_gate`
(plugin/__init__.py lines 766-788): build the zero matrix of dimension
`2^(c+t) × 2^(c+t)`, copy each row of the original matrix into the
bottom-right block by slice assignment, then set the top-left diagonal
entries to one. -/
def upscaleMatrix (tN cN : Nat) (matrix : List Cpx) : List Cpx :=
  let curSize := 2 ^ tN
  let extNq := cN + tN
  let extSize := 2 ^ extNq
  let offset := extSize - curSize
  let extMatrix := List.replicate (extSize * extSize) cpxZero
  let extMatrix := (List.range curSize).foldl (fun m i =>
    pySliceAssign m ((offset + i) * extSize + offset) ((offset + i) * extSize + extSize)
      ((matrix.drop (i * curSize)).take curSize)) extMatrix
  let extMatrix := (List.range offset).foldl (fun m i =>
    m.set (i * extSize + i) cpxOne) extMatrix
  extMatrix

/-- The block matrix described by the specification, written directly from
its words: dimension `2^(t+c) × 2^(t+c)` row-major, the identity in the
top-left `(2^(t+c) - 2^t) × (2^(t+c) - 2^t)` block, the original matrix in
the bottom-right `2^t × 2^t` block (offset by `2^(t+c) - 2^t` in both
dimensions), and zeros elsewhere. -/
def specBlockMatrix (tN cN : Nat) (matrix : List Cpx) : List Cpx :=
  let curSize := 2 ^ tN
  let extSize := 2 ^ (tN + cN)
  let offset := extSize - curSize
  (List.range (extSize * extSize)).map (fun idx =>
    let r := idx / extSize
    let k := idx % extSize
    if r < offset then
      if k = r then cpxOne else cpxZero
    else if k < offset then
      cpxZero
    else
      matrix.getD ((r - offset) * curSize + (k - offset)) cpxZero)

/-- Truthiness of the `matrix` variable of `_route_gate` (`None` or a Python
list): `if targets and matrix` is false for an absent or empty matrix. -/
def pyTruthyMat : Option (List Cpx) → Bool
  | none => false
  | some m => !m.isEmpty

/-- An incoming gate as decoded by `Backend._route_gate`: custom name (when
`dqcs_gate_is_custom`), the three qubit sets, the optional matrix, and the
attached ArbData payload (read only on the custom path). -/
structure Gate where
  name : Option String
  targets : List Int
  controls : List Int
  measures : List Int
  matrix : Option (List Cpx)
  args : List (List Nat)
  json : JMap
deriving DecidableEq

/-- One user-handler invocation performed by `Backend._route_gate`, with the
arguments passed to it. -/
inductive GateEvent where
  | controlledCall (targets controls : List Int) (matrix : List Cpx)
  | unitaryCall (targets : List Int) (matrix : List Cpx)
  | measurementCall (measures : List Int)
  | customCall (name : String) (targets controls measures : List Int)
      (matrix : Option (List Cpx)) (args : List (List Nat)) (json : JMap)
deriving DecidableEq

/-- Translation of `Backend._route_gate`: the sequence of user-handler
invocations for one incoming gate, or the propagated error. The `handlers`
list holds the callback names the plugin instance defines (`hasattr`).

For a non-custom gate with targets and a matrix and a non-empty control set,
the dedicated controlled-gate handler is tried first, with its
NotImplementedError swallowed; the matrix conversion that follows sits after
the whole try/except statement in the source, not inside the except clause,
so it runs whether or not the controlled-gate handler was defined, and
`handle_unitary_gate` is dispatched afterwards in both cases. -/
def routeGate (handlers : List String) (g : Gate) : Except String (List GateEvent) :=
  match g.name with
  | some name =>
    if ("handle_" ++ name ++ "_gate") ∈ handlers then
      .ok [.customCall name g.targets g.controls g.measures g.matrix g.args g.json]
    else
      .error ("Python plugin does not implement handle_" ++ name
        ++ "_gate(), which is a required function!")
  | none => do
    let unitaryEvents ←
      if g.targets ≠ [] ∧ pyTruthyMat g.matrix then do
        let matrix0 := g.matrix.getD []
        let step ←
          if g.controls ≠ [] then do
            let controlledEvents :=
              if "handle_controlled_gate" ∈ handlers then
                [GateEvent.controlledCall g.targets g.controls matrix0]
              else []
            let curSize := 2 ^ g.targets.length
            if matrix0.length ≠ curSize * curSize then
              throw "AssertionError"
            else
              pure (controlledEvents,
                upscaleMatrix g.targets.length g.controls.length matrix0,
                g.controls ++ g.targets)
          else
            pure (([] : List GateEvent), matrix0, g.targets)
        if "handle_unitary_gate" ∈ handlers then
          pure (step.1 ++ [GateEvent.unitaryCall step.2.2 step.2.1])
        else
          throw "Python plugin does not implement handle_unitary_gate(), which is a required function!"
      else
        pure []
    let measureEvents ←
      if g.measures ≠ [] then
        if "handle_measurement_gate" ∈ handlers then
          pure [GateEvent.measurementCall g.measures]
        else
          throw "Python plugin does not implement handle_measurement_gate(), which is a required function!"
      else
        pure []
    pure (unitaryEvents ++ measureEvents)

/-! ## Correctness of the upscaler

The two fold phases of `upscaleMatrix` are characterized structurally: the
row-copy phase produces the top zero block followed by the copied rows, and
the diagonal phase rewrites the top zero block into identity rows. The
parameters are generalized (`off + cur = ext`) so that no power arithmetic
appears in the inductions.
-/

/-- Length of the flattened copied-row block. -/
theorem botRows_length (matrix : List Cpx) (cur ext off : Nat)
    (hoff : off + cur = ext) (hmat : matrix.length = cur * cur) :
    ∀ k, k ≤ cur →
    (((List.range k).map (fun i =>
        List.replicate off cpxZero ++ (matrix.drop (i * cur)).take cur)).flatten).length
      = k * ext := by
  intro k
  induction k with
  | zero => intro hk; simp
  | succ k ih =>
    intro hk
    rw [List.range_succ, List.map_append, List.flatten_append, List.length_append]
    rw [ih (by omega)]
    have hsm : (k + 1) * ext = k * ext + ext := Nat.succ_mul k ext
    have hrow : ((List.map (fun i => List.replicate off cpxZero ++
        (matrix.drop (i * cur)).take cur) [k]).flatten).length = ext := by
      simp only [List.map_cons, List.map_nil, List.flatten_cons, List.flatten_nil,
        List.append_nil, List.length_append, List.length_replicate, List.length_take,
        List.length_drop]
      have hc : (k + 1) * cur ≤ cur * cur := Nat.mul_le_mul_right cur hk
      have hsc : (k + 1) * cur = k * cur + cur := Nat.succ_mul k cur
      rw [hmat]
      omega
    rw [hrow, hsm]

/-- The row-copy fold: after `k` steps, the matrix is the top zero block,
the first `k` copied rows, and the untouched zero tail. -/
theorem sliceFold_eq (matrix : List Cpx) (cur ext off : Nat)
    (hoff : off + cur = ext) (hmat : matrix.length = cur * cur) :
    ∀ k, k ≤ cur →
    (List.range k).foldl (fun m i =>
        pySliceAssign m ((off + i) * ext + off) ((off + i) * ext + ext)
          ((matrix.drop (i * cur)).take cur))
      (List.replicate (ext * ext) cpxZero)
    = List.replicate (off * ext) cpxZero
      ++ ((List.range k).map (fun i =>
          List.replicate off cpxZero ++ (matrix.drop (i * cur)).take cur)).flatten
      ++ List.replicate ((cur - k) * ext) cpxZero := by
  intro k
  induction k with
  | zero =>
    intro hk
    have hsplit : ext * ext = off * ext + cur * ext := by
      rw [← hoff, Nat.add_mul]
    rw [List.range_zero, List.foldl_nil, List.map_nil, List.flatten_nil, hsplit,
      List.replicate_add, Nat.sub_zero]
    simp
  | succ k ih =>
    intro hk
    rw [List.range_succ, List.foldl_append, ih (by omega)]
    rw [List.map_append, List.flatten_append]
    simp only [List.foldl_cons, List.foldl_nil, List.map_cons, List.map_nil,
      List.flatten_cons, List.flatten_nil, List.append_nil]
    set front := List.replicate (off * ext) cpxZero
      ++ ((List.range k).map (fun i =>
          List.replicate off cpxZero ++ (matrix.drop (i * cur)).take cur)).flatten
      with hfront
    have hfrontlen : front.length = (off + k) * ext := by
      rw [hfront]
      simp only [List.length_append, List.length_replicate]
      rw [botRows_length matrix cur ext off hoff hmat k (by omega)]
      rw [Nat.add_mul]
    unfold pySliceAssign
    have htake : (front ++ List.replicate ((cur - k) * ext) cpxZero).take
        ((off + k) * ext + off)
        = front ++ List.replicate off cpxZero := by
      rw [← hfrontlen, List.take_append, List.take_replicate]
      have hoffle : off ≤ (cur - k) * ext := by
        have h1 : 1 ≤ cur - k := by omega
        have h2 : ext ≤ (cur - k) * ext := by
          calc ext = 1 * ext := by omega
          _ ≤ (cur - k) * ext := Nat.mul_le_mul_right ext h1
        omega
      rw [min_eq_left hoffle]
    have hdrop : (front ++ List.replicate ((cur - k) * ext) cpxZero).drop
        ((off + k) * ext + ext)
        = List.replicate ((cur - (k + 1)) * ext) cpxZero := by
      rw [← hfrontlen, List.drop_append, List.drop_replicate]
      congr 1
      have hsplit2 : (cur - k) * ext = ext + (cur - (k + 1)) * ext := by
        have h1 : cur - k = 1 + (cur - (k + 1)) := by omega
        rw [h1, Nat.add_mul, Nat.one_mul]
      omega
    rw [htake, hdrop]
    simp [List.append_assoc, hfront]

/-- Setting an entry of an all-zeros row to one. -/
theorem set_replicate_one (n k : Nat) (hk : k < n) :
    (List.replicate n cpxZero).set k cpxOne
    = List.replicate k cpxZero ++ cpxOne :: List.replicate (n - k - 1) cpxZero := by
  have hsplit : List.replicate n cpxZero
      = List.replicate k cpxZero ++ cpxZero :: List.replicate (n - k - 1) cpxZero := by
    rw [← List.replicate_succ, ← List.replicate_add]
    congr 1
    omega
  rw [hsplit, List.set_append_right k cpxOne (by simp)]
  simp

/-- Length of the flattened identity-row block. -/
theorem idRows_length (ext off : Nat) (hoffext : off ≤ ext) :
    ∀ k, k ≤ off →
    (((List.range k).map (fun i =>
        List.replicate i cpxZero ++ cpxOne :: List.replicate (ext - i - 1) cpxZero)).flatten).length
      = k * ext := by
  intro k
  induction k with
  | zero => intro hk; simp
  | succ k ih =>
    intro hk
    rw [List.range_succ, List.map_append, List.flatten_append, List.length_append]
    rw [ih (by omega)]
    have hsm : (k + 1) * ext = k * ext + ext := Nat.succ_mul k ext
    have hrow : ((List.map (fun i =>
        List.replicate i cpxZero ++ cpxOne :: List.replicate (ext - i - 1) cpxZero)
        [k]).flatten).length = ext := by
      simp only [List.map_cons, List.map_nil, List.flatten_cons, List.flatten_nil,
        List.append_nil, List.length_append, List.length_replicate, List.length_cons]
      omega
    rw [hrow, hsm]

/-- The diagonal fold: after `k` steps, the first `k` rows of the top zero
block have become identity rows; everything after the top block is
untouched. -/
theorem setDiag_eq (cur ext off : Nat) (hoff : off + cur = ext) (rest : List Cpx) :
    ∀ k, k ≤ off →
    (List.range k).foldl (fun m i => m.set (i * ext + i) cpxOne)
      (List.replicate (off * ext) cpxZero ++ rest)
    = ((List.range k).map (fun i =>
        List.replicate i cpxZero ++ cpxOne :: List.replicate (ext - i - 1) cpxZero)).flatten
      ++ List.replicate ((off - k) * ext) cpxZero ++ rest := by
  have hoffext : off ≤ ext := by omega
  intro k
  induction k with
  | zero =>
    intro hk
    simp
  | succ k ih =>
    intro hk
    rw [List.range_succ, List.foldl_append, ih (by omega)]
    simp only [List.foldl_cons, List.foldl_nil]
    rw [List.map_append, List.flatten_append]
    simp only [List.map_cons, List.map_nil, List.flatten_cons, List.flatten_nil,
      List.append_nil]
    set idblock := ((List.range k).map (fun i =>
        List.replicate i cpxZero ++ cpxOne :: List.replicate (ext - i - 1) cpxZero)).flatten
      with hidblock
    have hidlen : idblock.length = k * ext := idRows_length ext off hoffext k (by omega)
    have hpos : k * ext + k = idblock.length + k := by omega
    rw [List.append_assoc idblock, hpos,
      List.set_append_right (idblock.length + k) cpxOne (by omega)]
    have hsub : idblock.length + k - idblock.length = k := by omega
    rw [hsub]
    have hklt : k < (List.replicate ((off - k) * ext) cpxZero).length := by
      rw [List.length_replicate]
      have h1 : 1 ≤ off - k := by omega
      have h2 : ext ≤ (off - k) * ext := by
        calc ext = 1 * ext := by omega
        _ ≤ (off - k) * ext := Nat.mul_le_mul_right ext h1
      omega
    rw [List.set_append_left k cpxOne hklt]
    rw [set_replicate_one ((off - k) * ext) k (by
      rw [List.length_replicate] at hklt
      omega)]
    have htailsplit : (off - k) * ext - k - 1
        = (ext - k - 1) + (off - (k + 1)) * ext := by
      have h1 : off - k = 1 + (off - (k + 1)) := by omega
      have h2 : (off - k) * ext = ext + (off - (k + 1)) * ext := by
        rw [h1, Nat.add_mul, Nat.one_mul]
      omega
    rw [htailsplit, List.replicate_add]
    simp [List.append_assoc]

/-- Row decomposition of a map over a rectangular index range. -/
theorem range_mul_map_flatten (C : Nat) (f : Nat → Cpx) :
    ∀ R, (List.range (R * C)).map f
    = ((List.range R).map (fun r => (List.range C).map (fun c => f (r * C + c)))).flatten := by
  intro R
  induction R with
  | zero => simp
  | succ R ih =>
    have hm : (R + 1) * C = R * C + C := Nat.succ_mul R C
    rw [hm, List.range_add, List.map_append, ih]
    rw [List.range_succ, List.map_append, List.flatten_append]
    simp only [List.map_cons, List.map_nil, List.flatten_cons, List.flatten_nil,
      List.append_nil]
    congr 1
    rw [List.map_map]
    rfl

/-- A Kronecker-delta row written as a map over the column range. -/
theorem map_range_delta (a b : Cpx) :
    ∀ (m r : Nat), r < m →
    (List.range m).map (fun c => if c = r then a else b)
    = List.replicate r b ++ a :: List.replicate (m - r - 1) b := by
  intro m
  induction m with
  | zero => intro r hr; omega
  | succ m ih =>
    intro r hr
    rw [List.range_succ, List.map_append]
    by_cases hrm : r = m
    · subst hrm
      have hconst : (List.range r).map (fun c => if c = r then a else b)
          = List.replicate r b := by
        have hpt : ∀ c ∈ List.range r, (if c = r then a else b) = (fun _ => b) c := by
          intro c hc
          rw [List.mem_range] at hc
          simp [Nat.ne_of_lt hc]
        rw [List.map_congr_left hpt, List.map_const', List.length_range]
      rw [hconst]
      simp
    · have hrlt : r < m := by omega
      rw [ih r hrlt]
      have hmr : ¬ (m = r) := fun h => hrm h.symm
      simp only [List.map_cons, List.map_nil, if_neg hmr]
      have hrep : List.replicate (m + 1 - r - 1) b
          = List.replicate (m - r - 1) b ++ [b] := by
        rw [← List.replicate_succ']
        congr 1
        omega
      rw [hrep]
      simp [List.append_assoc]

/-- A slice of the original matrix written as a map of `getD` lookups over
the column range. -/
theorem map_range_getD (matrix : List Cpx) (i cur : Nat)
    (hmat : matrix.length = cur * cur) (hi : i < cur) :
    (List.range cur).map (fun x => matrix.getD (i * cur + x) cpxZero)
    = (matrix.drop (i * cur)).take cur := by
  have hbound : i * cur + cur ≤ cur * cur := by
    have h1 : (i + 1) * cur ≤ cur * cur := Nat.mul_le_mul_right cur hi
    have h2 : (i + 1) * cur = i * cur + cur := Nat.succ_mul i cur
    omega
  apply List.ext_getElem
  · simp only [List.length_map, List.length_range, List.length_take, List.length_drop, hmat]
    omega
  · intro j h1 h2
    simp only [List.length_map, List.length_range] at h1
    simp only [List.getElem_map, List.getElem_range]
    rw [List.getElem_take, List.getElem_drop]
    rw [List.getD_eq_getElem matrix cpxZero (by omega)]

/-- One row of the spec block matrix below the top block. -/
theorem map_range_botRow (matrix : List Cpx) (cur ext off i : Nat)
    (hoff : off + cur = ext) (hmat : matrix.length = cur * cur) (hi : i < cur) :
    (List.range ext).map (fun c =>
      if c < off then cpxZero else matrix.getD (i * cur + (c - off)) cpxZero)
    = List.replicate off cpxZero ++ (matrix.drop (i * cur)).take cur := by
  have hsplit : List.range ext = List.range off ++ (List.range cur).map (off + ·) := by
    rw [← hoff]
    exact List.range_add off cur
  rw [hsplit, List.map_append]
  congr 1
  · have hpt : ∀ c ∈ List.range off,
        (if c < off then cpxZero else matrix.getD (i * cur + (c - off)) cpxZero)
          = (fun _ => cpxZero) c := by
      intro c hc
      rw [List.mem_range] at hc
      simp [hc]
    rw [List.map_congr_left hpt, List.map_const', List.length_range]
  · rw [List.map_map]
    have hpt : ∀ x ∈ List.range cur,
        ((fun c => if c < off then cpxZero else matrix.getD (i * cur + (c - off)) cpxZero)
          ∘ (off + ·)) x
        = (fun x => matrix.getD (i * cur + x) cpxZero) x := by
      intro x hx
      simp only [Function.comp_apply]
      rw [if_neg (by omega)]
      congr 2
      omega
    rw [List.map_congr_left hpt]
    exact map_range_getD matrix i cur hmat hi

/-- The spec block matrix, decomposed into identity rows followed by copied
rows. -/
theorem specBlock_structured (matrix : List Cpx) (cur ext off : Nat)
    (hoff : off + cur = ext) (hcur : 0 < cur) (hmat : matrix.length = cur * cur) :
    (List.range (ext * ext)).map (fun idx =>
      if idx / ext < off then
        (if idx % ext = idx / ext then cpxOne else cpxZero)
      else if idx % ext < off then cpxZero
      else matrix.getD ((idx / ext - off) * cur + (idx % ext - off)) cpxZero)
    = ((List.range off).map (fun i =>
        List.replicate i cpxZero ++ cpxOne :: List.replicate (ext - i - 1) cpxZero)).flatten
      ++ ((List.range cur).map (fun i =>
        List.replicate off cpxZero ++ (matrix.drop (i * cur)).take cur)).flatten := by
  have hext : 0 < ext := by omega
  rw [range_mul_map_flatten ext _ ext, ← List.flatten_append]
  congr 1
  have hsplit : List.range ext = List.range off ++ (List.range cur).map (off + ·) := by
    rw [← hoff]
    exact List.range_add off cur
  nth_rewrite 2 [hsplit]
  rw [List.map_append]
  congr 1
  · apply List.map_congr_left
    intro r hr
    rw [List.mem_range] at hr
    have hinner : ∀ c ∈ List.range ext,
        (if (r * ext + c) / ext < off then
          (if (r * ext + c) % ext = (r * ext + c) / ext then cpxOne else cpxZero)
        else if (r * ext + c) % ext < off then cpxZero
        else matrix.getD (((r * ext + c) / ext - off) * cur
          + ((r * ext + c) % ext - off)) cpxZero)
        = (fun c => if c = r then cpxOne else cpxZero) c := by
      intro c hc
      rw [List.mem_range] at hc
      have hdiv : (r * ext + c) / ext = r := by
        rw [Nat.mul_comm r ext, Nat.mul_add_div hext, Nat.div_eq_of_lt hc]
        omega
      have hmod : (r * ext + c) % ext = c := by
        rw [Nat.mul_comm r ext, Nat.mul_add_mod, Nat.mod_eq_of_lt hc]
      rw [hdiv, hmod, if_pos hr]
    rw [List.map_congr_left hinner]
    exact map_range_delta cpxOne cpxZero ext r (by omega)
  · rw [List.map_map]
    apply List.map_congr_left
    intro i hi
    rw [List.mem_range] at hi
    simp only [Function.comp_apply]
    have hinner : ∀ c ∈ List.range ext,
        (if ((off + i) * ext + c) / ext < off then
          (if ((off + i) * ext + c) % ext = ((off + i) * ext + c) / ext then cpxOne
            else cpxZero)
        else if ((off + i) * ext + c) % ext < off then cpxZero
        else matrix.getD ((((off + i) * ext + c) / ext - off) * cur
          + (((off + i) * ext + c) % ext - off)) cpxZero)
        = (fun c => if c < off then cpxZero
            else matrix.getD (i * cur + (c - off)) cpxZero) c := by
      intro c hc
      rw [List.mem_range] at hc
      have hdiv : ((off + i) * ext + c) / ext = off + i := by
        rw [Nat.mul_comm (off + i) ext, Nat.mul_add_div hext, Nat.div_eq_of_lt hc]
        omega
      have hmod : ((off + i) * ext + c) % ext = c := by
        rw [Nat.mul_comm (off + i) ext, Nat.mul_add_mod, Nat.mod_eq_of_lt hc]
      rw [hdiv, hmod, if_neg (by omega)]
      have hoffi : off + i - off = i := by omega
      rw [hoffi]
    rw [List.map_congr_left hinner]
    exact map_range_botRow matrix cur ext off i hoff hmat hi

/-- The upscaled matrix synthesized by `Backend._route_gate` equals the block
matrix described by the specification. -/
theorem upscaleMatrix_eq_specBlockMatrix (tN cN : Nat) (matrix : List Cpx)
    (hmat : matrix.length = 2 ^ tN * 2 ^ tN) :
    upscaleMatrix tN cN matrix = specBlockMatrix tN cN matrix := by
  have hcur_le : 2 ^ tN ≤ 2 ^ (cN + tN) := Nat.pow_le_pow_right (by omega) (by omega)
  have hoff : (2 ^ (cN + tN) - 2 ^ tN) + 2 ^ tN = 2 ^ (cN + tN) :=
    Nat.sub_add_cancel hcur_le
  have hcur : 0 < 2 ^ tN := Nat.pos_pow_of_pos tN (by omega)
  unfold upscaleMatrix
  simp only
  rw [sliceFold_eq matrix (2 ^ tN) (2 ^ (cN + tN)) (2 ^ (cN + tN) - 2 ^ tN) hoff hmat
    (2 ^ tN) (le_refl _)]
  rw [Nat.sub_self, Nat.zero_mul, List.replicate_zero, List.append_nil]
  rw [setDiag_eq (2 ^ tN) (2 ^ (cN + tN)) (2 ^ (cN + tN) - 2 ^ tN) hoff _
    (2 ^ (cN + tN) - 2 ^ tN) (le_refl _)]
  rw [Nat.sub_self, Nat.zero_mul, List.replicate_zero, List.append_nil]
  unfold specBlockMatrix
  have hpow : (2 : Nat) ^ (tN + cN) = 2 ^ (cN + tN) := by
    rw [Nat.add_comm]
  rw [hpow]
  exact (specBlock_structured matrix (2 ^ tN) (2 ^ (cN + tN)) (2 ^ (cN + tN) - 2 ^ tN)
    hoff hcur hmat).symm

/-! ## Gate router evaluation lemmas -/

/-- Row-major matrix of the Pauli X gate, `[[0,1],[1,0]]`. -/
def xMatrix : List Cpx := [cpxZero, cpxOne, cpxOne, cpxZero]

/-- The standard 4 by 4 CNOT matrix with control-qubit-first ordering. -/
def cnotMatrix : List Cpx :=
  [cpxOne, cpxZero, cpxZero, cpxZero,
   cpxZero, cpxOne, cpxZero, cpxZero,
   cpxZero, cpxZero, cpxZero, cpxOne,
   cpxZero, cpxZero, cpxOne, cpxZero]

/-- The standard 8 by 8 Toffoli matrix with controls-first ordering. -/
def toffoliMatrix : List Cpx :=
  [cpxOne, cpxZero, cpxZero, cpxZero, cpxZero, cpxZero, cpxZero, cpxZero,
   cpxZero, cpxOne, cpxZero, cpxZero, cpxZero, cpxZero, cpxZero, cpxZero,
   cpxZero, cpxZero, cpxOne, cpxZero, cpxZero, cpxZero, cpxZero, cpxZero,
   cpxZero, cpxZero, cpxZero, cpxOne, cpxZero, cpxZero, cpxZero, cpxZero,
   cpxZero, cpxZero, cpxZero, cpxZero, cpxOne, cpxZero, cpxZero, cpxZero,
   cpxZero, cpxZero, cpxZero, cpxZero, cpxZero, cpxOne, cpxZero, cpxZero,
   cpxZero, cpxZero, cpxZero, cpxZero, cpxZero, cpxZero, cpxZero, cpxOne,
   cpxZero, cpxZero, cpxZero, cpxZero, cpxZero, cpxZero, cpxOne, cpxZero]

/-- Evaluation of `_route_gate` on a controlled unitary gate when the plugin
has no dedicated controlled-gate handler: the matrix is upscaled and the
plain unitary handler is invoked with the controls prepended to the
targets. -/
theorem routeGate_no_controlled (handlers : List String) (g : Gate) (matrix : List Cpx)
    (hname : g.name = none) (ht : g.targets ≠ []) (hc : g.controls ≠ [])
    (hm : g.matrix = some matrix) (hne : matrix ≠ [])
    (hlen : matrix.length = 2 ^ g.targets.length * 2 ^ g.targets.length)
    (hnoc : "handle_controlled_gate" ∉ handlers)
    (hu : "handle_unitary_gate" ∈ handlers)
    (hmeas : g.measures = []) :
    routeGate handlers g = .ok [.unitaryCall (g.controls ++ g.targets)
      (upscaleMatrix g.targets.length g.controls.length matrix)] := by
  have hmtruthy : (g.targets ≠ [] ∧ pyTruthyMat (some matrix) = true) := by
    refine ⟨ht, ?_⟩
    simp [pyTruthyMat, hne]
  have hassert : ¬ (matrix.length ≠ 2 ^ g.targets.length * 2 ^ g.targets.length) := by
    omega
  have hmeas2 : ¬ (g.measures ≠ []) := by simp [hmeas]
  simp only [routeGate, hname, hm, Option.getD_some, if_pos hmtruthy, if_pos hc,
    if_neg hassert, if_neg hnoc, if_pos hu, if_neg hmeas2]
  rfl

/-! ## Claim theorems -/

/-- Claim C1: for every unitary gate with t targets, c at least 1 controls,
and a 2^t by 2^t row-major matrix, when no dedicated controlled-gate handler
applies, the synthesized extended matrix of dimension 2^(t+c) by 2^(t+c)
equals the block matrix with the identity in the top-left block, the original
matrix in the bottom-right block, and zeros elsewhere, and the unitary
handler is invoked with target list controls ++ targets; in particular for
the X matrix with 1 control the result is the standard CNOT matrix and with
2 controls the standard Toffoli matrix. -/
theorem claim_C1 (handlers : List String) (g : Gate) (matrix : List Cpx)
    (hname : g.name = none) (ht : g.targets ≠ []) (hc : g.controls ≠ [])
    (hm : g.matrix = some matrix) (hne : matrix ≠ [])
    (hlen : matrix.length = 2 ^ g.targets.length * 2 ^ g.targets.length)
    (hnoc : "handle_controlled_gate" ∉ handlers)
    (hu : "handle_unitary_gate" ∈ handlers)
    (hmeas : g.measures = []) :
    routeGate handlers g = .ok [.unitaryCall (g.controls ++ g.targets)
      (specBlockMatrix g.targets.length g.controls.length matrix)]
    ∧ upscaleMatrix g.targets.length g.controls.length matrix
      = specBlockMatrix g.targets.length g.controls.length matrix
    ∧ upscaleMatrix 1 1 xMatrix = cnotMatrix
    ∧ upscaleMatrix 1 2 xMatrix = toffoliMatrix := by
  have hspec := upscaleMatrix_eq_specBlockMatrix g.targets.length g.controls.length
    matrix hlen
  refine ⟨?_, hspec, by decide, by decide⟩
  rw [← hspec]
  exact routeGate_no_controlled handlers g matrix hname ht hc hm hne hlen hnoc hu hmeas

/-- Witness for C1 at the CNOT instance: one target qubit 2, one control
qubit 1, the X matrix, and a backend defining only the plain unitary
handler. -/
theorem claim_C1_witness :
    routeGate ["handle_unitary_gate", "handle_measurement_gate"]
      { name := none, targets := [2], controls := [1], measures := [],
        matrix := some xMatrix, args := [], json := .nil }
      = .ok [.unitaryCall ([1] ++ [2]) (specBlockMatrix 1 1 xMatrix)]
    ∧ upscaleMatrix 1 1 xMatrix = specBlockMatrix 1 1 xMatrix
    ∧ upscaleMatrix 1 1 xMatrix = cnotMatrix
    ∧ upscaleMatrix 1 2 xMatrix = toffoliMatrix :=
  claim_C1 ["handle_unitary_gate", "handle_measurement_gate"]
    { name := none, targets := [2], controls := [1], measures := [],
      matrix := some xMatrix, args := [], json := .nil }
    xMatrix rfl (by decide) (by decide) rfl (by decide) (by decide)
    (by decide) (by decide) rfl

/-- Claim C2: the claim states that when the plugin implements
handle_controlled_gate, the dispatch core calls it and stops, neither
upscaling the matrix nor invoking handle_unitary_gate for that gate. The
code violates this: the matrix conversion block sits after the whole
try/except statement rather than inside the except clause, so for an X gate
with control 1 and target 2 a backend defining both handlers receives the
controlled-gate call and then additionally a unitary call with the upscaled
4 by 4 CNOT matrix, contradicting the docstrings of Operator and Backend in
the same file and the expectations of test_gate.py. -/
theorem claim_C2 :
    routeGate ["handle_controlled_gate", "handle_unitary_gate", "handle_measurement_gate"]
      { name := none, targets := [2], controls := [1], measures := [],
        matrix := some xMatrix, args := [], json := .nil }
    = .ok [.controlledCall [2] [1] xMatrix, .unitaryCall [1, 2] cnotMatrix] := rfl

/-- Claim C3: decoding the encoding of every constructible ArbData, ArbCmd,
and Measurement value yields the value back under the structural equality
of each type, including values whose payloads exceed the 256-byte probe
buffer. -/
theorem claim_C3 :
    (∀ d : ArbData, ArbData.from_raw d.to_raw = some d)
    ∧ (∀ (iface oper : String) (args : List (List Nat)) (json : JMap) (c : ArbCmd),
        ArbCmd.init iface oper args json = .ok c → ArbCmd.from_raw c.to_raw = .ok c)
    ∧ (∀ (qubit : Int) (value : PyVal) (args : List (List Nat)) (json : JMap)
        (m : Measurement), Measurement.init qubit value args json = .ok m →
        ∃ nm : NativeMeas, m.to_raw = some nm ∧ Measurement.from_raw nm = .ok m) :=
  ⟨arbData_roundtrip, arbCmd_roundtrip, measurement_roundtrip⟩

/-- An ArbData with a 1024-byte binary argument and a cbor payload longer
than the 256-byte probe buffer. -/
def bigArbData : ArbData :=
  { args := [List.replicate 1024 7],
    json := JMap.cons "k" (.jbytes (List.replicate 300 1)) .nil }

/-- An ArbCmd carrying a 1024-byte binary argument. -/
def bigArbCmd : ArbCmd :=
  { iface := "x", oper := "y", args := [List.replicate 1024 7], json := .nil }

/-- A measurement with outcome 1 for qubit 5. -/
def oneMeasurement : Measurement :=
  { qubit := 5, value := some 1, args := [], json := .nil }

/-- Witness for C3: the three round trips at concrete values, with a
1024-byte binary argument and a 300-byte cbor payload exceeding the probe
buffer. -/
theorem claim_C3_witness :
    ArbData.from_raw bigArbData.to_raw = some bigArbData
    ∧ ArbCmd.from_raw bigArbCmd.to_raw = .ok bigArbCmd
    ∧ (∃ nm : NativeMeas, oneMeasurement.to_raw = some nm
        ∧ Measurement.from_raw nm = .ok oneMeasurement) :=
  ⟨claim_C3.1 bigArbData,
   claim_C3.2.1 "x" "y" [List.replicate 1024 7] .nil bigArbCmd rfl,
   claim_C3.2.2 5 (.pyint 2) [] .nil oneMeasurement rfl⟩

/-- Claim C4: an ArbCmd whose interface is unknown for its source is a
silent no-op returning the empty ArbData, while a known interface with no
matching handler raises the hard error naming the operation and interface
identifiers. -/
theorem claim_C4 (handlers : List String) (arbIfaces : String → List String)
    (impl : String → ArbCmd → Option ArbData) (cmd : ArbCmd) :
    (cmd.iface ∉ arbIfaces "host" →
      routeHostArb handlers arbIfaces impl cmd = .ok ArbData.empty)
    ∧ (cmd.iface ∈ arbIfaces "host" →
      ("handle_" ++ "host" ++ "_" ++ cmd.iface ++ "_" ++ cmd.oper) ∉ handlers →
      routeHostArb handlers arbIfaces impl cmd
        = .error ("Invalid operation ID " ++ cmd.oper ++ " for interface ID " ++ cmd.iface)) := by
  constructor
  · intro hunk
    unfold routeHostArb routeConvertedArb
    rw [if_pos hunk]
  · intro hknown hnoh
    unfold routeHostArb routeConvertedArb
    rw [if_neg (by simp [hknown])]
    simp only
    rw [if_neg hnoh]

/-- Witness for C4: with known host interface list containing only `x` and
no handlers, the command `(z, y)` resolves to an empty ArbData and the
command `(x, y)` raises the invalid-operation error. -/
theorem claim_C4_witness :
    routeHostArb [] (fun _ => ["x"]) (fun _ _ => none)
      { iface := "z", oper := "y", args := [], json := .nil } = .ok ArbData.empty
    ∧ routeHostArb [] (fun _ => ["x"]) (fun _ _ => none)
      { iface := "x", oper := "y", args := [], json := .nil }
      = .error ("Invalid operation ID " ++ "y" ++ " for interface ID " ++ "x") :=
  ⟨(claim_C4 [] (fun _ => ["x"]) (fun _ _ => none)
      { iface := "z", oper := "y", args := [], json := .nil }).1 (by decide),
   (claim_C4 [] (fun _ => ["x"]) (fun _ _ => none)
      { iface := "x", oper := "y", args := [], json := .nil }).2 (by decide) (by decide)⟩

/-- Claim C5: every accessor that needs the plugin state raises the
outside-of-a-callback RuntimeError when no callback is in flight (state
handle absent), and dispatching a callback whose handler exists while one is
already active raises the recursive-callback reentrancy error instead of
entering the handler. -/
theorem claim_C5 (handlers : List String) (h st : Int) (name : String) :
    pluginPc none = .error "Cannot call plugin operator outside of a callback"
    ∧ pluginLogCheck none = .error "Cannot call plugin operator outside of a callback"
    ∧ (name ∈ handlers → cbDispatch handlers (some h) st name
        = .reentrancy "Invalid state, recursive callback") := by
  refine ⟨rfl, rfl, ?_⟩
  intro hmem
  unfold cbDispatch
  rw [if_pos hmem, if_pos (by simp)]

/-- Witness for C5 at a concrete plugin with one handler. -/
theorem claim_C5_witness :
    pluginPc none = .error "Cannot call plugin operator outside of a callback"
    ∧ pluginLogCheck none = .error "Cannot call plugin operator outside of a callback"
    ∧ cbDispatch ["handle_run"] (some 7) 8 "handle_run"
        = .reentrancy "Invalid state, recursive callback" :=
  ⟨(claim_C5 ["handle_run"] 7 8 "handle_run").1,
   (claim_C5 ["handle_run"] 7 8 "handle_run").2.1,
   (claim_C5 ["handle_run"] 7 8 "handle_run").2.2 (by decide)⟩

/-- Claim C6 counterexample: the identifier `a-b` contains a character
outside [A-Za-z0-9_], yet the ArbCmd constructor accepts it, because
`_ident_re.match` only anchors at the start of the string. The claim that
such an argument is rejected with a ValueError is therefore false. -/
theorem claim_C6_counterexample :
    ArbCmd.init "a-b" "x" [] .nil
      = .ok { iface := "a-b", oper := "x", args := [], json := .nil }
    ∧ ("a-b".data.all isIdentChar) = false := by
  constructor
  · rfl
  · decide

/-- Claim C6 as amended: the identifiers of a constructed ArbCmd are non-empty
and begin with a character in [A-Za-z0-9_]; the constructor rejects exactly
the identifiers that are empty or start with a character outside that class
(characters after the first are not checked, since `re.match` performs a
prefix search). -/
theorem claim_C6 (iface oper : String) (args : List (List Nat)) (json : JMap) :
    (∃ c : ArbCmd, ArbCmd.init iface oper args json = .ok c)
    ↔ ((∃ ch rest, iface.data = ch :: rest ∧ isIdentChar ch = true)
       ∧ (∃ ch rest, oper.data = ch :: rest ∧ isIdentChar ch = true)) := by
  have hchar : ∀ s : String, identReMatch s = true
      ↔ (∃ ch rest, s.data = ch :: rest ∧ isIdentChar ch = true) := by
    intro s
    unfold identReMatch
    constructor
    · intro hm
      match hs : s.data with
      | [] => rw [hs] at hm; exact absurd hm (by simp)
      | ch :: rest =>
        rw [hs] at hm
        exact ⟨ch, rest, rfl, hm⟩
    · intro ⟨ch, rest, hs, hch⟩
      rw [hs]
      exact hch
  constructor
  · intro ⟨c, hc⟩
    unfold ArbCmd.init at hc
    by_cases hif : identReMatch iface = false
    · rw [if_pos hif] at hc
      exact absurd hc (by simp)
    · rw [if_neg hif] at hc
      by_cases hop : identReMatch oper = false
      · rw [if_pos hop] at hc
        exact absurd hc (by simp)
      · exact ⟨(hchar iface).mp (by simpa using hif), (hchar oper).mp (by simpa using hop)⟩
  · intro ⟨hif, hop⟩
    refine ⟨{ iface := iface, oper := oper, args := args, json := json }, ?_⟩
    unfold ArbCmd.init
    rw [if_neg (by simp [(hchar iface).mpr hif]), if_neg (by simp [(hchar oper).mpr hop])]

/-- Claim C7: after take() succeeds, every operation that reads or borrows
the underlying id on the original proxy raises the taken-handle ValueError,
and finalization of the proxy performs no native deallocation of the
returned raw id. -/
theorem claim_C7 (h h2 : PyHandle) (v : Int) (typeOf : Int → Int) (typ : Int)
    (fails : Bool) (htake : h.take = .ok (v, h2)) :
    h2.toInt = .error "Using explicitly taken handle!"
    ∧ h2.take = .error "Using explicitly taken handle!"
    ∧ h2.get_type typeOf = .error "Using explicitly taken handle!"
    ∧ h2.is_type typeOf typ = .error "Using explicitly taken handle!"
    ∧ (h2.del fails).deleteCalls = [] := by
  have hnone : h2.handle = none := by
    unfold PyHandle.take at htake
    match hh : h.handle with
    | none => rw [hh] at htake; exact absurd htake (by simp)
    | some w =>
      rw [hh] at htake
      simp only [Except.ok.injEq, Prod.mk.injEq] at htake
      rw [← htake.2]
  refine ⟨?_, ?_, ?_, ?_, ?_⟩
  · unfold PyHandle.toInt
    rw [hnone]
  · unfold PyHandle.take
    rw [hnone]
  · unfold PyHandle.get_type
    rw [hnone]
  · unfold PyHandle.is_type PyHandle.get_type
    rw [hnone]
  · unfold PyHandle.del PyHandle.isValid
    rw [hnone]
    simp

/-- Witness for C7: taking a valid handle with id 42. -/
theorem claim_C7_witness :
    PyHandle.toInt { handle := none } = .error "Using explicitly taken handle!"
    ∧ PyHandle.take { handle := none } = .error "Using explicitly taken handle!"
    ∧ PyHandle.get_type (fun _ => 0) { handle := none }
        = .error "Using explicitly taken handle!"
    ∧ PyHandle.is_type (fun _ => 0) { handle := none } 3
        = .error "Using explicitly taken handle!"
    ∧ (PyHandle.del { handle := none } true).deleteCalls = [] :=
  claim_C7 (PyHandle.init 42) { handle := none } 42 (fun _ => 0) 3 true rfl

/-- Claim C8: handle finalization calls the native deallocation exactly once
for a valid owned handle and not at all when ownership was taken or the
handle was never valid; a RuntimeError from the native delete call is caught
and discarded, so the resource leaks rather than the error propagating. -/
theorem claim_C8 (h : PyHandle) (fails : Bool) :
    ((h.del fails).deleteCalls.length = if h.isValid then 1 else 0)
    ∧ (h.handle = none → (h.del fails).deleteCalls = [])
    ∧ (h.handle = some 0 → (h.del fails).deleteCalls = [])
    ∧ (h.del fails).raised = false
    ∧ (fails = true → (h.del fails).deleted = false) := by
  unfold PyHandle.del
  by_cases hv : h.isValid
  · rw [if_pos hv]
    match hh : h.handle with
    | none =>
      unfold PyHandle.isValid at hv
      rw [hh] at hv
      exact absurd hv (by simp)
    | some w =>
      have hw : 0 < w := by
        unfold PyHandle.isValid at hv
        rw [hh] at hv
        simpa using hv
      refine ⟨?_, ?_, ?_, ?_, ?_⟩
      · cases fails <;> simp [hv]
      · intro hx
        simp at hx
      · intro hx
        simp only [Option.some.injEq] at hx
        omega
      · cases fails <;> simp
      · intro hf
        subst hf
        simp
  · rw [if_neg hv]
    exact ⟨by simp [hv], by intro _; simp, by intro _; simp, by simp, by intro _; simp⟩

/-- Witness for C8: a valid handle with id 1 whose native delete fails. -/
theorem claim_C8_witness :
    (((PyHandle.init 1).del true).deleteCalls.length
      = if (PyHandle.init 1).isValid then 1 else 0)
    ∧ ((PyHandle.init 1).handle = none → ((PyHandle.init 1).del true).deleteCalls = [])
    ∧ ((PyHandle.init 1).handle = some 0 → ((PyHandle.init 1).del true).deleteCalls = [])
    ∧ ((PyHandle.init 1).del true).raised = false
    ∧ (true = true → ((PyHandle.init 1).del true).deleted = false) :=
  claim_C8 (PyHandle.init 1) true

/-- Claim C9: for each collection codec, the variadic-scalar form and the
single-iterable form of `_to_raw` push the same elements in the same order
into the native collection. -/
theorem claim_C9 (qs : List Int) (ms : List Measurement) (cs : List ArbCmd) :
    QubitSet.to_raw (qs.map .scalar) = QubitSet.to_raw [.iterable qs]
    ∧ MeasurementSet.to_raw (ms.map .scalar) = MeasurementSet.to_raw [.iterable ms]
    ∧ ArbCmdQueue.to_raw (cs.map .scalar) = ArbCmdQueue.to_raw [.iterable cs] := by
  refine ⟨?_, ?_, ?_⟩
  · unfold QubitSet.to_raw
    rw [varargElems_agree]
  · unfold MeasurementSet.to_raw
    rw [varargElems_agree]
  · unfold ArbCmdQueue.to_raw
    rw [varargElems_agree]

/-- Claim C10: for every qubit of at least 1 and every non-None value of any
type, the Measurement constructor succeeds and stores int(bool(v)); in
particular the out-of-range value 2 is silently coerced to 1 and
Measurement(q, 2) equals Measurement(q, 1). -/
theorem claim_C10 (q : Int) (v : PyVal) (args : List (List Nat)) (json : JMap)
    (hq : 1 ≤ q) (hv : v ≠ .pynone) :
    (∃ m : Measurement, Measurement.init q v args json = .ok m
      ∧ m.value = some (if v.truthy then 1 else 0))
    ∧ Measurement.init q (.pyint 2) args json = Measurement.init q (.pyint 1) args json := by
  have hqe : ¬ q < 1 := by omega
  constructor
  · refine ⟨{ qubit := q, value := measValueCoerce v, args := args, json := json }, ?_, ?_⟩
    · unfold Measurement.init
      rw [if_neg hqe]
    · have hcoerce : measValueCoerce v = some (if v.truthy then 1 else 0) := by
        cases v with
        | pynone => exact absurd rfl hv
        | pybool b => rfl
        | pyint n => rfl
        | pystr s => rfl
        | pybytes bs => rfl
      simp [hcoerce]
  · unfold Measurement.init
    rw [if_neg hqe, if_neg hqe]
    rfl

/-- Witness for C10 at qubit 1 with the out-of-range value 2. -/
theorem claim_C10_witness :
    (∃ m : Measurement, Measurement.init 1 (.pyint 2) [] .nil = .ok m
      ∧ m.value = some (if (PyVal.pyint 2).truthy then 1 else 0))
    ∧ Measurement.init 1 (.pyint 2) [] .nil = Measurement.init 1 (.pyint 1) [] .nil :=
  claim_C10 1 (.pyint 2) [] .nil (by decide) (by decide)
